import Mathlib

/-!
Shallow embedding of the request-construction, pagination, schema-unfolding
and site-identifier-resolution core of the unifi-cli repository.

Conventions of the embedding:
* JavaScript runtime values flowing through the engine (parsed JSON bodies,
  transport responses) are modelled by the inductive type `JVal`; JSON numbers
  appearing in the claims are integers, so `JVal.num` carries an `Int`.
* A JavaScript `Record<string, string>` is modelled as an association list in
  insertion order; assignment `rec[k] = v` is `setKey` (overwrite in place when
  the key exists, append otherwise) and property read is `lookupStr`
  (first match), matching the unique-key invariant of runtime records.
* A TypeScript optional field (`x?: T`, absent meaning `undefined`) is
  `Option`.
* `String.prototype.replace` with a plain string pattern replaces the first
  occurrence only; it is modelled by `replaceFirst`.
* The unbounded `while (true)` pagination loop is modelled with an explicit
  fuel parameter; `none` means the loop did not finish within the given fuel.
  Fuel is quantified in the theorems, so no behaviour is hidden by it.
-/

/-- Runtime JSON-like values (`unknown` on the TypeScript side). -/
inductive JVal where
  | null : JVal
  | bool : Bool → JVal
  | num : Int → JVal
  | str : String → JVal
  | arr : List JVal → JVal
  | obj : List (String × JVal) → JVal

/-- The strict-equality test `v === null`. -/
def JVal.isNull : JVal → Bool
  | JVal.null => true
  | _ => false

/-- Property read `v[k]` on a runtime value other than null or undefined:
an object yields the bound value when the key is present; every other
non-null value (string, number, boolean, array) yields undefined (`none`).
Reading a property of `null` throws in JavaScript; callers of `jGet` in this
development check for `null` first, exactly where the source dereferences. -/
def jGet : JVal → String → Option JVal
  | JVal.obj kvs, k => kvs.lookup k
  | _, _ => none

/-- The value of `v[k]` when it is an array (the `Array.isArray` test). -/
def jGetArr (v : JVal) (k : String) : Option (List JVal) :=
  match jGet v k with
  | some (JVal.arr l) => some l
  | _ => none

/-- The value of `v[k]` when it is an array, defaulting to the empty list. -/
def jGetArrD (v : JVal) (k : String) : List JVal :=
  (jGetArr v k).getD []

/-- The value of `v[k]` when it is a number (the `typeof x === "number"`
test), with a fallback default. -/
def jGetNumD (v : JVal) (k : String) (d : Int) : Int :=
  match jGet v k with
  | some (JVal.num n) => n
  | _ => d

/-- Replace the first occurrence of `pat` in a character list by `rep`
(the semantics of JavaScript `String.prototype.replace` with a string
pattern and a plain replacement). -/
def replaceFirstAux (pat rep : List Char) : List Char → List Char
  | [] => if pat.isPrefixOf ([] : List Char) then rep else []
  | c :: rest =>
    if pat.isPrefixOf (c :: rest) then rep ++ (c :: rest).drop pat.length
    else c :: replaceFirstAux pat rep rest

/-- Replace the first occurrence of `pat` in `s` by `rep`. -/
def replaceFirst (s pat rep : String) : String :=
  ⟨replaceFirstAux pat.data rep.data s.data⟩

/-- Association-list lookup modelling a property read on a
`Record<string, string>`. -/
def lookupStr : List (String × String) → String → Option String
  | [], _ => none
  | (k, v) :: rest, key => if k = key then some v else lookupStr rest key

/-- Record assignment `rec[k] = v`: overwrite the existing binding in place
when the key is present, append the binding otherwise. -/
def setKey : List (String × String) → String → String → List (String × String)
  | [], k, v => [(k, v)]
  | (k0, v0) :: rest, k, v =>
    if k0 = k then (k, v) :: rest else (k0, v0) :: setKey rest k v

/-- One positional path argument of a command descriptor
(`args` entry of `CmdDef` in commands.ts). -/
structure ArgDef where
  name : String
  desc : String
deriving DecidableEq, Repr

/-- One extra query parameter of a command descriptor
(`extraQuery` entry of `CmdDef` in commands.ts). -/
structure QueryParamDef where
  name : String
  required : Bool
  desc : String
deriving DecidableEq, Repr

/-- Operation descriptor (`CmdDef` in commands.ts). -/
structure CmdDef where
  group : Option String
  action : String
  operationId : String
  method : String
  path : String
  summary : String
  args : List ArgDef
  needsSite : Bool
  paginatable : Bool
  hasBody : Bool
  extraQuery : List QueryParamDef
deriving DecidableEq, Repr

/-- Invocation parameters (`ExecuteParams` in execute.ts). -/
structure ExecuteParams where
  siteId : Option String
  args : List (String × String)
  offset : Option String
  limit : Option String
  filter : Option String
  extraQuery : Option (List (String × String))
  body : Option JVal

/-- Resolved request (`ExecuteResult` in execute.ts). -/
structure ExecuteResult where
  method : String
  path : String
  query : List (String × String)
  body : Option JVal

/-- Whether a character is an ASCII lowercase letter (the `[a-z]` class). -/
def isAsciiLowerAlpha (c : Char) : Bool :=
  'a' ≤ c && c ≤ 'z'

/-- First pass of `camelCase` in commands.ts: the global replacement of
`-x` (hyphen followed by a lowercase letter) with the uppercased letter,
scanning left to right without overlap. -/
def camelStep1 : List Char → List Char
  | [] => []
  | ['-'] => ['-']
  | '-' :: c :: rest =>
    if isAsciiLowerAlpha c then c.toUpper :: camelStep1 rest
    else '-' :: camelStep1 (c :: rest)
  | c :: rest => c :: camelStep1 rest

/-- Second pass of `camelCase` in commands.ts: the replacement of every
`[A-Z]` match whose offset is zero by its lowercase form, which lowercases
the leading character when it is an ASCII uppercase letter and leaves every
other character unchanged. -/
def camelStep2 : List Char → List Char
  | [] => []
  | c :: rest => (if 'A' ≤ c && c ≤ 'Z' then c.toLower else c) :: rest

/-- The `camelCase` helper of commands.ts. -/
def camelCase (s : String) : String :=
  ⟨camelStep2 (camelStep1 s.data)⟩

/-- The `resolveRequest` function of execute.ts: substitute the site
placeholder (JavaScript falsy test `params.siteId || "default"`), substitute
each declared positional argument in declared order skipping falsy values,
then build the query record (pagination keys only when `paginatable`, the
`filter` key only when truthy, then each declared extra query parameter read
under its declared name or its camel-cased alias), and keep the body only
when `hasBody`. -/
def resolveRequest (cmd : CmdDef) (params : ExecuteParams) : ExecuteResult :=
  let path0 := cmd.path
  let path1 :=
    if cmd.needsSite then
      let siteId :=
        match params.siteId with
        | some s => if s = "" then "default" else s
        | none => "default"
      replaceFirst path0 "\x7bsiteId\x7d" siteId
    else path0
  let path2 := cmd.args.foldl
    (fun p arg =>
      match lookupStr params.args arg.name with
      | some v => if v = "" then p else replaceFirst p ("\x7b" ++ arg.name ++ "\x7d") v
      | none => p)
    path1
  let query0 : List (String × String) := []
  let query1 :=
    if cmd.paginatable then
      let qa := match params.offset with
        | some o => setKey query0 "offset" o
        | none => query0
      let qb := match params.limit with
        | some l => setKey qa "limit" l
        | none => qa
      match params.filter with
      | some f => if f = "" then qb else setKey qb "filter" f
      | none => qb
    else query0
  let query2 := cmd.extraQuery.foldl
    (fun q qp =>
      let v :=
        match params.extraQuery with
        | some eq0 =>
          match lookupStr eq0 qp.name with
          | some v0 => some v0
          | none => lookupStr eq0 (camelCase qp.name)
        | none => none
      match v with
      | some v0 => setKey q qp.name v0
      | none => q)
    query1
  { method := cmd.method
    path := path2
    query := query2
    body := if cmd.hasBody then params.body else none }

/-- Outcome of a run of `executeAllPages`: either the value the function
returns, or the JavaScript `TypeError` thrown when the loop dereferences
`result.data` on a `null` response. -/
inductive RunResult where
  | value : JVal → RunResult
  | thrown : RunResult

/-- The merged page object `\x7b data: allData, totalCount \x7d` built on
normal completion of the pagination loop. -/
def mkPageObj (allData : List JVal) (totalCount : Int) : JVal :=
  JVal.obj [("data", JVal.arr allData), ("totalCount", JVal.num totalCount)]

/-- Loop body of `executeAllPages` in execute.ts, instrumented with the
interaction trace: the returned list pairs every issued request with the
transport response it received, in order. The transport is a function of
the call index (responses may differ between calls) and the issued request.
`fuel` bounds the number of iterations; `none` means the `while (true)`
loop was still running when the fuel ran out. -/
def execPagesAux (cmd : CmdDef) (params : ExecuteParams)
    (transport : Nat → ExecuteResult → JVal) (pageSize : Nat) :
    Nat → Nat → Nat → List JVal → Option (RunResult × List (ExecuteResult × JVal))
  | 0, _, _, _ => none
  | fuel + 1, call, offset, allData =>
    let pageParams : ExecuteParams :=
      { params with offset := some (toString offset), limit := some (toString pageSize) }
    let req := resolveRequest cmd pageParams
    let result := transport call req
    if result.isNull then
      some (RunResult.thrown, [(req, result)])
    else
      match jGetArr result "data" with
      | some data =>
        let allData2 := allData ++ data
        let totalCount : Int := jGetNumD result "totalCount" (allData2.length : Int)
        if (allData2.length : Int) ≥ totalCount ∨ data.length < pageSize then
          some (RunResult.value (mkPageObj allData2 totalCount), [(req, result)])
        else
          match execPagesAux cmd params transport pageSize fuel (call + 1) (offset + data.length) allData2 with
          | some (r, tr) => some (r, (req, result) :: tr)
          | none => none
      | none => some (RunResult.value result, [(req, result)])

/-- The `executeAllPages` function of execute.ts, instrumented with the
interaction trace. A non-paginatable command delegates to a single
`executeCommand` call (one transport invocation) and returns its response
unchanged. -/
def executeAllPages (cmd : CmdDef) (params : ExecuteParams)
    (transport : Nat → ExecuteResult → JVal) (pageSize : Nat) (fuel : Nat) :
    Option (RunResult × List (ExecuteResult × JVal)) :=
  if cmd.paginatable then
    execPagesAux cmd params transport pageSize fuel 0 0 []
  else
    let req := resolveRequest cmd params
    some (RunResult.value (transport 0 req), [(req, transport 0 req)])

/-- Number of items of the data array of one trace entry response
(zero when the response carries no data array). -/
def pageLen (p : ExecuteResult × JVal) : Nat :=
  (jGetArrD p.2 "data").length

/-- Total number of items across the responses of a trace segment. -/
def sumPages (tr : List (ExecuteResult × JVal)) : Nat :=
  (tr.map pageLen).sum

/-- OpenAPI schema node (`SchemaRef` in schema.ts): a record of optional
fields. `refName` is the `$ref` field, `enumVals` the `enum` field; the other
fields keep their source names. Properties keep their document order. -/
inductive SchemaRef where
  | mk :
    (refName : Option String) →
    (type : Option String) →
    (enumVals : Option (List String)) →
    (properties : Option (List (String × SchemaRef))) →
    (required : Option (List String)) →
    (items : Option SchemaRef) →
    (description : Option String) →
    (oneOf : Option (List SchemaRef)) →
    (anyOf : Option (List SchemaRef)) →
    (allOf : Option (List SchemaRef)) →
    SchemaRef

/-- The `$ref` field of a schema node. -/
def SchemaRef.refName : SchemaRef → Option String
  | .mk r _ _ _ _ _ _ _ _ _ => r

/-- The `type` field of a schema node. -/
def SchemaRef.type : SchemaRef → Option String
  | .mk _ t _ _ _ _ _ _ _ _ => t

/-- The `enum` field of a schema node. -/
def SchemaRef.enumVals : SchemaRef → Option (List String)
  | .mk _ _ e _ _ _ _ _ _ _ => e

/-- The `properties` field of a schema node. -/
def SchemaRef.properties : SchemaRef → Option (List (String × SchemaRef))
  | .mk _ _ _ p _ _ _ _ _ _ => p

/-- The `required` field of a schema node. -/
def SchemaRef.required : SchemaRef → Option (List String)
  | .mk _ _ _ _ r _ _ _ _ _ => r

/-- The `items` field of a schema node. -/
def SchemaRef.items : SchemaRef → Option SchemaRef
  | .mk _ _ _ _ _ i _ _ _ _ => i

/-- The `description` field of a schema node. -/
def SchemaRef.description : SchemaRef → Option String
  | .mk _ _ _ _ _ _ d _ _ _ => d

/-- The `oneOf` field of a schema node. -/
def SchemaRef.oneOf : SchemaRef → Option (List SchemaRef)
  | .mk _ _ _ _ _ _ _ o _ _ => o

/-- The `anyOf` field of a schema node. -/
def SchemaRef.anyOf : SchemaRef → Option (List SchemaRef)
  | .mk _ _ _ _ _ _ _ _ a _ => a

/-- The `allOf` field of a schema node. -/
def SchemaRef.allOf : SchemaRef → Option (List SchemaRef)
  | .mk _ _ _ _ _ _ _ _ _ a => a

/-- A schema node with a single populated field, as a builder for tests and
statements: a pure reference node. -/
def refNode (r : String) : SchemaRef :=
  .mk (some r) none none none none none none none none none

/-- The named-schema mapping `spec.components.schemas` of the document:
the part of `OpenAPISpec` that `resolveRef` and `toJsonSchema` read. -/
def SchemasDoc := List (String × SchemaRef)

/-- The `resolveRef` function of schema.ts: strip the first occurrence of
the components prefix from the reference string and look the name up in the
named-schema mapping, with absence as a normal outcome. -/
def resolveRef (sp : SchemasDoc) (ref : String) : Option SchemaRef :=
  let name := replaceFirst ref "#/components/schemas/" ""
  (List.lookup name (sp : List (String × SchemaRef)))

/-- The generic unconstrained-object placeholder
`\x7b type: "object" \x7d` returned by `toJsonSchema` at the depth bound,
on a reference revisited along the same path, and on a missing reference. -/
def genericObject : JVal :=
  JVal.obj [("type", JVal.str "object")]

/-- The `toJsonSchema` function of schema.ts. The `seen` list models the
`Set` of reference strings already followed along the current unfolding
path; a reference chain accumulates into the same list (the source mutates
the shared set before a tail call), while each child branch receives the
current list unchanged (the source passes a copy). Every recursive call
decrements `maxDepth`, and `maxDepth = 0` yields `genericObject`. -/
def toJsonSchemaAux (sp : SchemasDoc) : Nat → SchemaRef → List String → JVal
  | 0, _, _ => genericObject
  | d + 1, schemaOrRef, seen =>
    match schemaOrRef.refName with
    | some r =>
      if seen.contains r then genericObject
      else
        match resolveRef sp r with
        | some resolved => toJsonSchemaAux sp d resolved (r :: seen)
        | none => genericObject
    | none =>
      match schemaOrRef.oneOf with
      | some vs => JVal.obj [("oneOf", JVal.arr (vs.map (fun v => toJsonSchemaAux sp d v seen)))]
      | none =>
        match schemaOrRef.anyOf with
        | some vs => JVal.obj [("anyOf", JVal.arr (vs.map (fun v => toJsonSchemaAux sp d v seen)))]
        | none =>
          match schemaOrRef.allOf with
          | some vs => JVal.obj [("allOf", JVal.arr (vs.map (fun v => toJsonSchemaAux sp d v seen)))]
          | none =>
            if schemaOrRef.type = some "array" then
              JVal.obj (("type", JVal.str "array") ::
                (match schemaOrRef.items with
                 | some it => [("items", toJsonSchemaAux sp d it seen)]
                 | none => []))
            else if schemaOrRef.type = some "object" ∨ (schemaOrRef.properties).isSome then
              JVal.obj (("type", JVal.str "object") ::
                (match schemaOrRef.properties with
                 | some props => [("properties", JVal.obj (props.map (fun p => (p.1, toJsonSchemaAux sp d p.2 seen))))]
                 | none => []) ++
                (match schemaOrRef.required with
                 | some req => [("required", JVal.arr (req.map JVal.str))]
                 | none => []) ++
                (match schemaOrRef.description with
                 | some desc => if desc = "" then [] else [("description", JVal.str desc)]
                 | none => []))
            else
              match schemaOrRef.enumVals with
              | some evs =>
                JVal.obj (("type", JVal.str ((schemaOrRef.type).getD "string")) ::
                  ("enum", JVal.arr (evs.map JVal.str)) ::
                  (match schemaOrRef.description with
                   | some desc => if desc = "" then [] else [("description", JVal.str desc)]
                   | none => []))
              | none =>
                JVal.obj (("type", JVal.str ((schemaOrRef.type).getD "object")) ::
                  (match schemaOrRef.description with
                   | some desc => if desc = "" then [] else [("description", JVal.str desc)]
                   | none => []))

/-- The `toJsonSchema` function of schema.ts with its source argument
order. -/
def toJsonSchema (sp : SchemasDoc) (schemaOrRef : SchemaRef) (maxDepth : Nat)
    (seen : List String) : JVal :=
  toJsonSchemaAux sp maxDepth schemaOrRef seen

/-- Whether a character is in the class `[0-9a-f]` of the canonical-id
regular expression in mcp.ts. -/
def isLowerHexDigit (c : Char) : Bool :=
  c.isDigit || ('a' ≤ c && c ≤ 'f')

/-- The test of the regular expression `^[0-9a-f]\x7b8\x7d-` used by
`resolveSiteId` in mcp.ts: the string starts with eight characters from
`[0-9a-f]` followed by a hyphen. -/
def looksLikeUuid (s : String) : Bool :=
  decide (9 ≤ s.data.length) && (s.data.take 8).all isLowerHexDigit &&
    s.data.get? 8 = some '-'

/-- Hexadecimal character in the usual sense of the specification words:
`0-9`, `a-f` or `A-F`. -/
def isHexCharSpec (c : Char) : Bool :=
  c.isDigit || ('a' ≤ c && c ≤ 'f') || ('A' ≤ c && c ≤ 'F')

/-- A canonical lexical shape read off the words of the specification:
the string begins with eight hexadecimal characters followed by a hyphen.
Kept separate from `looksLikeUuid`, which is translated from the source
regular expression, so the two can be compared. -/
def specCanonicalShape (s : String) : Bool :=
  decide (9 ≤ s.data.length) && (s.data.take 8).all isHexCharSpec &&
    s.data.get? 8 = some '-'

/-- One entry of the site listing as read by `resolveSiteId` in mcp.ts:
an id and an optional `internalReference`. -/
structure SiteEntry where
  id : String
  internalReference : Option String
deriving DecidableEq, Repr

/-- The `resolveSiteId` function of mcp.ts over the module-level cache
`resolvedDefaultSiteId`. `cache` is the cache value on entry (`none` is the
initial `null`). `sitesCmd` is the result of `findCmd "getSiteOverviewPage"`.
`listing` abstracts the awaited `executeAllPages` site fetch: `some entries`
when the merged result has a `data` array of site entries, `none` when it
has none. The result triple is (returned string, cache value on exit,
number of listing fetches performed). Branches follow the source: a
canonical-looking input returns immediately; a falsy cache (null or the
empty string) triggers one fetch when `sitesCmd` is present; a match caches
and returns its id; otherwise the function returns the cached value when
the cache is non-null and the input unchanged when it is null. -/
def resolveSiteId (cache : Option String) (siteId : String)
    (sitesCmd : Option CmdDef) (listing : Option (List SiteEntry)) :
    String × Option String × Nat :=
  if looksLikeUuid siteId then (siteId, cache, 0)
  else if cache.getD "" = "" then
    match sitesCmd with
    | some _ =>
      match listing with
      | some entries =>
        match entries.find? (fun s => s.internalReference = some siteId || s.id = siteId) with
        | some m => (m.id, some m.id, 1)
        | none => (cache.getD siteId, cache, 1)
      | none => (cache.getD siteId, cache, 1)
    | none => (cache.getD siteId, cache, 0)
  else (cache.getD siteId, cache, 0)

/-- The `getSiteOverviewPage` descriptor from the command registry in
commands.ts (the sites list operation used by concrete instances and by
`resolveSiteId`). -/
def sitesListCmd : CmdDef :=
  { group := some "sites"
    action := "list"
    operationId := "getSiteOverviewPage"
    method := "GET"
    path := "/v1/sites"
    summary := "List all local sites (site IDs are needed for most commands)"
    args := []
    needsSite := false
    paginatable := true
    hasBody := false
    extraQuery := [] }

/-- Empty invocation parameters (`\x7b args: \x7b\x7d \x7d`). -/
def params0 : ExecuteParams :=
  { siteId := none, args := [], offset := none, limit := none,
    filter := none, extraQuery := none, body := none }

/-- A list item `\x7b id: n \x7d`. -/
def idObj (n : Int) : JVal := JVal.obj [("id", JVal.num n)]

/-- First page of the pagination-merge example:
`\x7bdata:[\x7bid:1\x7d,\x7bid:2\x7d], totalCount:4\x7d`. -/
def page1 : JVal :=
  JVal.obj [("data", JVal.arr [idObj 1, idObj 2]), ("totalCount", JVal.num 4)]

/-- Second page of the pagination-merge example:
`\x7bdata:[\x7bid:3\x7d,\x7bid:4\x7d], totalCount:4\x7d`. -/
def page2 : JVal :=
  JVal.obj [("data", JVal.arr [idObj 3, idObj 4]), ("totalCount", JVal.num 4)]

/-- Transport of the pagination-merge example: page 1 on the first call,
page 2 afterwards. -/
def transport2 : Nat → ExecuteResult → JVal :=
  fun call _ => if call = 0 then page1 else page2

theorem sumPages_nil : sumPages [] = 0 := rfl

theorem sumPages_cons (p : ExecuteResult × JVal) (l : List (ExecuteResult × JVal)) :
    sumPages (p :: l) = pageLen p + sumPages l := by
  simp [sumPages]

theorem jGetArrD_of_some {v : JVal} {k : String} {d : List JVal}
    (h : jGetArr v k = some d) : jGetArrD v k = d := by
  simp [jGetArrD, h]

/-- Master invariant of the pagination loop: for every terminating run,
(1) at least one request is issued; (2) the k-th issued request is
`resolveRequest` at the inherited parameters with `offset` the running item
count and `limit` the page size, and the k-th response is the transport
response to it; (3) every response except the last carries a data array of
at least `pageSize` items; (4) when the run returns a value and every
response carries a data array, the value is the merged page object whose
data is the accumulator followed by all pages in fetch order; (5) when the
last response has no data array and is not null, the run returns that raw
response. -/
theorem execPagesAux_spec (cmd : CmdDef) (params : ExecuteParams)
    (transport : Nat → ExecuteResult → JVal) (pageSize : Nat) :
    ∀ (fuel call offset : Nat) (allData : List JVal) (r : RunResult)
      (tr : List (ExecuteResult × JVal)),
      execPagesAux cmd params transport pageSize fuel call offset allData = some (r, tr) →
      tr ≠ [] ∧
      (∀ (k : Nat) (p : ExecuteResult × JVal), tr.get? k = some p →
        p.1 = resolveRequest cmd { params with
          offset := some (toString (offset + sumPages (tr.take k))),
          limit := some (toString pageSize) } ∧
        p.2 = transport (call + k) p.1) ∧
      (∀ (k : Nat) (p : ExecuteResult × JVal), tr.get? k = some p →
        tr.get? (k + 1) ≠ none →
        ∃ d, jGetArr p.2 "data" = some d ∧ pageSize ≤ d.length) ∧
      (∀ v : JVal, r = RunResult.value v →
        (∀ (k : Nat) (p : ExecuteResult × JVal), tr.get? k = some p →
          (jGetArr p.2 "data").isSome) →
        ∃ t : Int, v = mkPageObj (allData ++ (tr.map (fun p => jGetArrD p.2 "data")).join) t) ∧
      (∀ h : tr ≠ [], jGetArr (tr.getLast h).2 "data" = none →
        (tr.getLast h).2.isNull = false → r = RunResult.value (tr.getLast h).2) := by
  intro fuel
  induction fuel with
  | zero =>
    intro call offset allData r tr h
    simp [execPagesAux] at h
  | succ fuel ih =>
    intro call offset allData r tr h
    rw [execPagesAux] at h
    simp only [] at h
    set pp : ExecuteParams := { params with
      offset := some (toString offset), limit := some (toString pageSize) } with hpp
    set req : ExecuteResult := resolveRequest cmd pp with hreq
    set result : JVal := transport call req with hresult
    by_cases hnull : result.isNull
    · rw [if_pos hnull] at h
      injection h with h2
      injection h2 with hr htr
      subst hr
      subst htr
      refine ⟨by simp, ?_, ?_, ?_, ?_⟩
      · intro k p hk
        match k with
        | 0 =>
          injection hk with hp
          subst hp
          constructor
          · simp [sumPages_nil, hreq, hpp]
          · simp [hresult]
        | k + 1 => simp at hk
      · intro k p hk hnext
        match k with
        | 0 => simp at hnext
        | k + 1 => simp at hk
      · intro v hv
        exact absurd hv (by intro hc; cases hc)
      · intro hne hdata hnn
        rw [show ([(req, result)].getLast hne) = (req, result) by simp] at hnn
        rw [hnull] at hnn
        cases hnn
    · rw [if_neg hnull] at h
      cases hdata : jGetArr result "data" with
      | none =>
        rw [hdata] at h
        injection h with h2
        injection h2 with hr htr
        subst hr
        subst htr
        refine ⟨by simp, ?_, ?_, ?_, ?_⟩
        · intro k p hk
          match k with
          | 0 =>
            injection hk with hp
            subst hp
            constructor
            · simp [sumPages_nil, hreq, hpp]
            · simp [hresult]
          | k + 1 => simp at hk
        · intro k p hk hnext
          match k with
          | 0 => simp at hnext
          | k + 1 => simp at hk
        · intro v hv hall
          have := hall 0 (req, result) (by simp)
          rw [hdata] at this
          simp at this
        · intro hne hd hnn
          rw [show ([(req, result)].getLast hne) = (req, result) by simp]
      | some data =>
        rw [hdata] at h
        dsimp only at h
        by_cases hstop : ((allData ++ data).length : Int) ≥
            jGetNumD result "totalCount" ((allData ++ data).length : Int) ∨
            data.length < pageSize
        · rw [if_pos hstop] at h
          injection h with h2
          injection h2 with hr htr
          subst hr
          subst htr
          refine ⟨by simp, ?_, ?_, ?_, ?_⟩
          · intro k p hk
            match k with
            | 0 =>
              injection hk with hp
              subst hp
              constructor
              · simp [sumPages_nil, hreq, hpp]
              · simp [hresult]
            | k + 1 => simp at hk
          · intro k p hk hnext
            match k with
            | 0 => simp at hnext
            | k + 1 => simp at hk
          · intro v hv hall
            injection hv with hveq
            refine ⟨jGetNumD result "totalCount" ((allData ++ data).length : Int), ?_⟩
            rw [← hveq]
            simp [jGetArrD_of_some hdata]
          · intro hne hd hnn
            rw [show ([(req, result)].getLast hne) = (req, result) by simp] at hd
            simp only at hd
            rw [hdata] at hd
            cases hd
        · rw [if_neg hstop] at h
          cases hrec : execPagesAux cmd params transport pageSize fuel (call + 1)
              (offset + data.length) (allData ++ data) with
          | none => rw [hrec] at h; cases h
          | some pr =>
            obtain ⟨r0, tr0⟩ := pr
            rw [hrec] at h
            injection h with h2
            injection h2 with hr htr
            subst hr
            subst htr
            obtain ⟨ihne, ihreq, ihfull, ihval, ihlast⟩ :=
              ih (call + 1) (offset + data.length) (allData ++ data) r0 tr0 hrec
            push_neg at hstop
            obtain ⟨hlt, hfull⟩ := hstop
            refine ⟨by simp, ?_, ?_, ?_, ?_⟩
            · intro k p hk
              match k with
              | 0 =>
                injection hk with hp
                subst hp
                constructor
                · simp [sumPages_nil, hreq, hpp]
                · simp [hresult]
              | k + 1 =>
                simp only [List.get?_cons_succ] at hk
                obtain ⟨ih1, ih2⟩ := ihreq k p hk
                constructor
                · rw [ih1]
                  have harith : offset + data.length + sumPages (tr0.take k) =
                      offset + sumPages (((req, result) :: tr0).take (k + 1)) := by
                    simp [List.take_cons, sumPages_cons, pageLen,
                      jGetArrD_of_some hdata]
                    omega
                  rw [← harith]
                · rw [ih2]
                  have : call + 1 + k = call + (k + 1) := by omega
                  rw [this]
            · intro k p hk hnext
              match k with
              | 0 =>
                injection hk with hp
                subst hp
                exact ⟨data, hdata, hfull⟩
              | k + 1 =>
                simp only [List.get?_cons_succ] at hk hnext
                exact ihfull k p hk hnext
            · intro v hv hall
              obtain ⟨t, ht⟩ := ihval v hv
                (fun k p hk => hall (k + 1) p (by simpa using hk))
              refine ⟨t, ?_⟩
              rw [ht]
              simp [jGetArrD_of_some hdata, List.append_assoc]
            · intro hne hd hnn
              rw [List.getLast_cons ihne] at hd hnn ⊢
              exact ihlast ihne hd hnn

/-- Path resolution as worded by the specification: first, when the
descriptor needs a site, substitute the site placeholder with the supplied
site id, defaulting to the literal string `default` when the site id is
absent or empty; then substitute each declared positional argument
placeholder, in catalog-declared order, with the corresponding supplied
value, where a falsy (empty or absent) value leaves the placeholder token
unsubstituted. Stated from the specification words, to be compared with
the path computed by `resolveRequest`. -/
def specResolvedPath (cmd : CmdDef) (params : ExecuteParams) : String :=
  let sitePath :=
    if cmd.needsSite then
      replaceFirst cmd.path "\x7bsiteId\x7d"
        (match params.siteId with
         | some s => if s = "" then "default" else s
         | none => "default")
    else cmd.path
  cmd.args.foldl
    (fun p arg =>
      match lookupStr params.args arg.name with
      | some v => if v = "" then p else replaceFirst p ("\x7b" ++ arg.name ++ "\x7d") v
      | none => p)
    sitePath

/-- Query construction as worded by the specification: starting from an
empty record, the pagination parameters `offset`, `limit` and `filter` are
set only when the descriptor is paginatable and the corresponding value is
supplied (for `filter`, supplied and non-empty); then each declared extra
query parameter is set under its declared name when a value is present in
the extra-query record either under the declared name or under its
camel-cased alias. Stated from the specification words, to be compared
with the query computed by `resolveRequest`. -/
def specQuery (cmd : CmdDef) (params : ExecuteParams) : List (String × String) :=
  let pagination :=
    if cmd.paginatable then
      let q1 := match params.offset with
        | some o => setKey [] "offset" o
        | none => []
      let q2 := match params.limit with
        | some l => setKey q1 "limit" l
        | none => q1
      match params.filter with
      | some f => if f = "" then q2 else setKey q2 "filter" f
      | none => q2
    else []
  cmd.extraQuery.foldl
    (fun q qp =>
      match (match params.extraQuery with
             | some eq0 =>
               match lookupStr eq0 qp.name with
               | some v0 => some v0
               | none => lookupStr eq0 (camelCase qp.name)
             | none => none) with
      | some v0 => setKey q qp.name v0
      | none => q)
    pagination

/-- The `getAdoptedDeviceDetails` descriptor from the command registry in
commands.ts (a site-scoped operation with one positional argument). -/
def deviceGetCmd : CmdDef :=
  { group := some "devices"
    action := "get"
    operationId := "getAdoptedDeviceDetails"
    method := "GET"
    path := "/v1/sites/\x7bsiteId\x7d/devices/\x7bdeviceId\x7d"
    summary := "Get detailed info for an adopted device"
    args := [{ name := "deviceId", desc := "Device ID" }]
    needsSite := true
    paginatable := false
    hasBody := false
    extraQuery := [] }

/-- The interaction trace of the two-page pagination-merge example. -/
def trace2 : List (ExecuteResult × JVal) :=
  [(resolveRequest sitesListCmd { params0 with offset := some "0", limit := some "2" }, page1),
   (resolveRequest sitesListCmd { params0 with offset := some "2", limit := some "2" }, page2)]

/-- C1: for every paginatable operation descriptor, executeAllPages issues
transport requests built by resolveRequest with limit fixed to pageSize and
offset starting at 0 and incremented by each returned page's item count,
concatenates the pages' data lists in fetch order, and on normal completion
returns the merged page object; in particular, with page size 2 and
transport returning page 1 then page 2 with totalCount 4 it returns the
four merged items with totalCount 4 after exactly 2 transport
invocations. -/
theorem executeAllPages_pagination_merge :
    (∀ (cmd : CmdDef) (params : ExecuteParams)
       (transport : Nat → ExecuteResult → JVal) (pageSize fuel : Nat)
       (r : RunResult) (tr : List (ExecuteResult × JVal)),
      cmd.paginatable = true →
      executeAllPages cmd params transport pageSize fuel = some (r, tr) →
      (∀ (k : Nat) (p : ExecuteResult × JVal), tr.get? k = some p →
        p.1 = resolveRequest cmd { params with
          offset := some (toString (sumPages (tr.take k))),
          limit := some (toString pageSize) }) ∧
      (∀ v : JVal, r = RunResult.value v →
        (∀ (k : Nat) (p : ExecuteResult × JVal), tr.get? k = some p →
          (jGetArr p.2 "data").isSome) →
        ∃ t : Int, v = mkPageObj ((tr.map (fun p => jGetArrD p.2 "data")).join) t)) ∧
    executeAllPages sitesListCmd params0 transport2 2 10 =
      some (RunResult.value (mkPageObj [idObj 1, idObj 2, idObj 3, idObj 4] 4), trace2) := by
  constructor
  · intro cmd params transport pageSize fuel r tr hpag hrun
    rw [executeAllPages] at hrun
    rw [hpag] at hrun
    simp only [if_true] at hrun
    obtain ⟨hne, hreqs, hfullpg, hval, hlast⟩ :=
      execPagesAux_spec cmd params transport pageSize fuel 0 0 [] r tr hrun
    constructor
    · intro k p hk
      have := (hreqs k p hk).1
      simpa using this
    · intro v hv hall
      obtain ⟨t, ht⟩ := hval v hv hall
      exact ⟨t, by simpa using ht⟩
  · rfl

theorem executeAllPages_pagination_merge_witness :
    (trace2.get ⟨1, by decide⟩).1 = resolveRequest sitesListCmd { params0 with
      offset := some (toString (sumPages (trace2.take 1))),
      limit := some (toString 2) } := by
  have h := (executeAllPages_pagination_merge.1 sitesListCmd params0 transport2 2 10
    (RunResult.value (mkPageObj [idObj 1, idObj 2, idObj 3, idObj 4] 4)) trace2 rfl rfl).1
  exact h 1 (trace2.get ⟨1, by decide⟩) rfl

/-- Single short page of the short-page-termination example:
`\x7bdata:[\x7bid:1\x7d], totalCount:100\x7d`. -/
def shortPage : JVal :=
  JVal.obj [("data", JVal.arr [idObj 1]), ("totalCount", JVal.num 100)]

/-- Transport of the short-page-termination example. -/
def transportShort : Nat → ExecuteResult → JVal :=
  fun _ _ => shortPage

/-- C2: executeAllPages stops requesting further pages as soon as a fetched
page contains fewer items than pageSize, even when the reported totalCount
implies more items remain; with page size 5 and a single returned page of
one item and totalCount 100, exactly 1 transport call is made and only that
item is returned. -/
theorem executeAllPages_short_page_stops :
    (∀ (cmd : CmdDef) (params : ExecuteParams)
       (transport : Nat → ExecuteResult → JVal) (pageSize fuel : Nat)
       (r : RunResult) (tr : List (ExecuteResult × JVal))
       (k : Nat) (p : ExecuteResult × JVal) (d : List JVal),
      cmd.paginatable = true →
      executeAllPages cmd params transport pageSize fuel = some (r, tr) →
      tr.get? k = some p →
      jGetArr p.2 "data" = some d →
      d.length < pageSize →
      tr.get? (k + 1) = none) ∧
    executeAllPages sitesListCmd params0 transportShort 5 10 =
      some (RunResult.value (mkPageObj [idObj 1] 100),
        [(resolveRequest sitesListCmd { params0 with offset := some "0", limit := some "5" },
          shortPage)]) := by
  constructor
  · intro cmd params transport pageSize fuel r tr k p d hpag hrun hk hd hshort
    rw [executeAllPages] at hrun
    rw [hpag] at hrun
    simp only [if_true] at hrun
    obtain ⟨hne, hreqs, hfullpg, hval, hlast⟩ :=
      execPagesAux_spec cmd params transport pageSize fuel 0 0 [] r tr hrun
    by_contra hnext
    obtain ⟨d2, hd2, hd2len⟩ := hfullpg k p hk hnext
    rw [hd] at hd2
    injection hd2 with hdd
    subst hdd
    omega
  · rfl

theorem executeAllPages_short_page_stops_witness :
    ([(resolveRequest sitesListCmd { params0 with offset := some "0", limit := some "5" },
       shortPage)] : List (ExecuteResult × JVal)).get? 1 = none := by
  exact (executeAllPages_short_page_stops.1 sitesListCmd params0 transportShort 5 10
    (RunResult.value (mkPageObj [idObj 1] 100))
    [(resolveRequest sitesListCmd { params0 with offset := some "0", limit := some "5" },
      shortPage)]
    0 (resolveRequest sitesListCmd { params0 with offset := some "0", limit := some "5" },
      shortPage)
    [idObj 1] rfl rfl rfl rfl (by decide))

/-- Transport of the abort example: a full first page, then a non-page
string response. -/
def transportAbort : Nat → ExecuteResult → JVal :=
  fun call _ => if call = 0 then page1 else JVal.str "error"

/-- The interaction trace of the abort example. -/
def traceAbort : List (ExecuteResult × JVal) :=
  [(resolveRequest sitesListCmd { params0 with offset := some "0", limit := some "2" }, page1),
   (resolveRequest sitesListCmd { params0 with offset := some "2", limit := some "2" },
    JVal.str "error")]

/-- C7 (amended): during executeAllPages on a paginatable descriptor, if a
transport response is a non-null value not shaped as a data-array page,
pagination aborts immediately and that raw response is returned as-is,
discarding any previously accumulated page items; a null response instead
makes the loop throw a TypeError when it dereferences the data property. -/
theorem executeAllPages_nonpage_abort :
    (∀ (cmd : CmdDef) (params : ExecuteParams)
       (transport : Nat → ExecuteResult → JVal) (pageSize fuel : Nat)
       (r : RunResult) (tr : List (ExecuteResult × JVal)) (hne : tr ≠ []),
      cmd.paginatable = true →
      executeAllPages cmd params transport pageSize fuel = some (r, tr) →
      jGetArr (tr.getLast hne).2 "data" = none →
      (tr.getLast hne).2.isNull = false →
      r = RunResult.value ((tr.getLast hne).2)) ∧
    executeAllPages sitesListCmd params0 transportAbort 2 10 =
      some (RunResult.value (JVal.str "error"), traceAbort) := by
  constructor
  · intro cmd params transport pageSize fuel r tr hne hpag hrun hdata hnn
    rw [executeAllPages] at hrun
    rw [hpag] at hrun
    simp only [if_true] at hrun
    obtain ⟨hne0, hreqs, hfullpg, hval, hlast⟩ :=
      execPagesAux_spec cmd params transport pageSize fuel 0 0 [] r tr hrun
    exact hlast hne hdata hnn
  · rfl

theorem executeAllPages_nonpage_abort_witness :
    RunResult.value (JVal.str "error") =
      RunResult.value ((traceAbort.getLast (List.cons_ne_nil _ _)).2) := by
  exact (executeAllPages_nonpage_abort.1 sitesListCmd params0 transportAbort 2 10
    (RunResult.value (JVal.str "error")) traceAbort (List.cons_ne_nil _ _) rfl rfl rfl rfl).symm ▸ rfl

/-- C7 counterexample: a transport delivering the JSON value null (a
response not shaped as a data-array page) does not make executeAllPages
return the raw response as-is; the run ends with the thrown TypeError
outcome instead, which differs from returning the null value. -/
theorem executeAllPages_null_response_throws :
    executeAllPages sitesListCmd params0 (fun _ _ => JVal.null) 2 10 =
      some (RunResult.thrown,
        [(resolveRequest sitesListCmd { params0 with offset := some "0", limit := some "2" },
          JVal.null)]) ∧
    RunResult.thrown ≠ RunResult.value JVal.null := by
  refine ⟨rfl, ?_⟩
  intro h
  cases h

theorem lookupStr_setKey (q : List (String × String)) (k v key : String) :
    lookupStr (setKey q k v) key = if k = key then some v else lookupStr q key := by
  induction q with
  | nil =>
    by_cases h : k = key <;> simp [setKey, lookupStr, h]
  | cons hd tl ih =>
    obtain ⟨k0, v0⟩ := hd
    by_cases h0 : k0 = k
    · subst h0
      by_cases h1 : k0 = key <;> simp [setKey, lookupStr, h1]
    · by_cases h1 : k0 = key
      · subst h1
        have hk : ¬ k = k0 := fun hc => h0 hc.symm
        simp [setKey, h0, lookupStr, hk]
      · simp [setKey, h0, lookupStr, h1, ih]

theorem foldl_lookup_agree {α : Type} (P : String → Prop)
    (f : List (String × String) → α → List (String × String))
    (hf : ∀ q1 q2 a, (∀ key, P key → lookupStr q1 key = lookupStr q2 key) →
      ∀ key, P key → lookupStr (f q1 a) key = lookupStr (f q2 a) key) :
    ∀ (l : List α) (q1 q2 : List (String × String)),
      (∀ key, P key → lookupStr q1 key = lookupStr q2 key) →
      ∀ key, P key → lookupStr (l.foldl f q1) key = lookupStr (l.foldl f q2) key := by
  intro l
  induction l with
  | nil => intro q1 q2 hq key hk; simpa using hq key hk
  | cons a tl ih =>
    intro q1 q2 hq key hk
    exact ih (f q1 a) (f q2 a) (fun k2 hk2 => hf q1 q2 a hq k2 hk2) key hk

/-- Two resolveRequest calls that differ only in the supplied offset and
limit agree on the method, the path, the body, and every query key other
than offset and limit. -/
theorem resolveRequest_offset_limit_frame (cmd : CmdDef) (params : ExecuteParams)
    (o1 l1 o2 l2 : Option String) :
    (resolveRequest cmd { params with offset := o1, limit := l1 }).method =
      (resolveRequest cmd { params with offset := o2, limit := l2 }).method ∧
    (resolveRequest cmd { params with offset := o1, limit := l1 }).path =
      (resolveRequest cmd { params with offset := o2, limit := l2 }).path ∧
    (resolveRequest cmd { params with offset := o1, limit := l1 }).body =
      (resolveRequest cmd { params with offset := o2, limit := l2 }).body ∧
    (∀ key, key ≠ "offset" → key ≠ "limit" →
      lookupStr (resolveRequest cmd { params with offset := o1, limit := l1 }).query key =
      lookupStr (resolveRequest cmd { params with offset := o2, limit := l2 }).query key) := by
  refine ⟨rfl, rfl, rfl, ?_⟩
  intro key ho hl
  have ho2 : ¬ ("offset" = key) := fun hc => ho hc.symm
  have hl2 : ¬ ("limit" = key) := fun hc => hl hc.symm
  simp only [resolveRequest]
  apply foldl_lookup_agree (fun k => k ≠ "offset" ∧ k ≠ "limit")
  · intro q1 q2 a hq k2 hk2
    cases hv : (match params.extraQuery with
      | some eq0 =>
        match lookupStr eq0 a.name with
        | some v0 => some v0
        | none => lookupStr eq0 (camelCase a.name)
      | none => none) with
    | none => simpa [hv] using hq k2 hk2
    | some v0 =>
      simp only [hv, lookupStr_setKey]
      by_cases hn : a.name = k2
      · simp [hn]
      · simp [hn, hq k2 hk2]
  · intro k2 hk2
    obtain ⟨hk2o, hk2l⟩ := hk2
    have hk2o2 : ¬ ("offset" = k2) := fun hc => hk2o hc.symm
    have hk2l2 : ¬ ("limit" = k2) := fun hc => hk2l hc.symm
    by_cases hpag : cmd.paginatable
    · simp only [hpag, if_true]
      rcases params.filter with _ | f
      · rcases o1 with _ | o1 <;> rcases l1 with _ | l1 <;>
          rcases o2 with _ | o2 <;> rcases l2 with _ | l2 <;>
          simp [lookupStr_setKey, hk2o2, hk2l2, lookupStr]
      · by_cases hf : f = ""
        · subst hf
          rcases o1 with _ | o1 <;> rcases l1 with _ | l1 <;>
            rcases o2 with _ | o2 <;> rcases l2 with _ | l2 <;>
            simp [lookupStr_setKey, hk2o2, hk2l2, lookupStr]
        · rcases o1 with _ | o1 <;> rcases l1 with _ | l1 <;>
            rcases o2 with _ | o2 <;> rcases l2 with _ | l2 <;>
            simp [lookupStr_setKey, hk2o2, hk2l2, lookupStr, hf]
    · simp [hpag]
  · exact ⟨ho, hl⟩

/-- C10: every transport request issued by executeAllPages for a
paginatable descriptor is resolveRequest at the caller parameters with the
offset and limit fields overridden by the paginator (so a caller-supplied
offset or limit never reaches the wire), and any two issued requests agree
on the method, the resolved path, the body, and every query key other than
offset and limit. -/
theorem executeAllPages_request_frame :
    ∀ (cmd : CmdDef) (params : ExecuteParams)
      (transport : Nat → ExecuteResult → JVal) (pageSize fuel : Nat)
      (r : RunResult) (tr : List (ExecuteResult × JVal)),
      cmd.paginatable = true →
      executeAllPages cmd params transport pageSize fuel = some (r, tr) →
      (∀ (k : Nat) (p : ExecuteResult × JVal), tr.get? k = some p →
        ∃ off : Nat, p.1 = resolveRequest cmd { params with
          offset := some (toString off), limit := some (toString pageSize) }) ∧
      (∀ (k1 k2 : Nat) (p1 p2 : ExecuteResult × JVal),
        tr.get? k1 = some p1 → tr.get? k2 = some p2 →
        p1.1.method = p2.1.method ∧ p1.1.path = p2.1.path ∧ p1.1.body = p2.1.body ∧
        (∀ key, key ≠ "offset" → key ≠ "limit" →
          lookupStr p1.1.query key = lookupStr p2.1.query key)) := by
  intro cmd params transport pageSize fuel r tr hpag hrun
  rw [executeAllPages] at hrun
  rw [hpag] at hrun
  simp only [if_true] at hrun
  obtain ⟨hne, hreqs, hfullpg, hval, hlast⟩ :=
    execPagesAux_spec cmd params transport pageSize fuel 0 0 [] r tr hrun
  constructor
  · intro k p hk
    exact ⟨0 + sumPages (tr.take k), (hreqs k p hk).1⟩
  · intro k1 k2 p1 p2 hk1 hk2
    rw [(hreqs k1 p1 hk1).1, (hreqs k2 p2 hk2).1]
    exact resolveRequest_offset_limit_frame cmd params _ _ _ _

theorem executeAllPages_request_frame_witness :
    (trace2.get ⟨0, by decide⟩).1.path = (trace2.get ⟨1, by decide⟩).1.path := by
  have h := executeAllPages_request_frame sitesListCmd params0 transport2 2 10
    (RunResult.value (mkPageObj [idObj 1, idObj 2, idObj 3, idObj 4] 4)) trace2 rfl rfl
  exact (h.2 0 1 (trace2.get ⟨0, by decide⟩) (trace2.get ⟨1, by decide⟩) rfl rfl).2.1

/-- C3: resolveRequest computes exactly the path described by the
specification wording (site placeholder replaced by the supplied site id or
the literal default when absent or empty, then each declared positional
argument substituted in catalog-declared order, a falsy value leaving its
placeholder token unsubstituted); concretely, for the device-details
descriptor the default site id is substituted when none is supplied, a
supplied pair substitutes both placeholders, and an empty positional value
leaves its placeholder literally in the resolved path. -/
theorem resolveRequest_path_spec :
    (∀ (cmd : CmdDef) (params : ExecuteParams),
      (resolveRequest cmd params).path = specResolvedPath cmd params) ∧
    (resolveRequest deviceGetCmd
      { params0 with args := [("deviceId", "dev42")] }).path =
      "/v1/sites/default/devices/dev42" ∧
    (resolveRequest deviceGetCmd
      { params0 with siteId := some "s1", args := [("deviceId", "dev42")] }).path =
      "/v1/sites/s1/devices/dev42" ∧
    (resolveRequest deviceGetCmd
      { params0 with siteId := some "s1", args := [("deviceId", "")] }).path =
      "/v1/sites/s1/devices/\x7bdeviceId\x7d" :=
  ⟨fun _ _ => rfl, rfl, rfl, rfl⟩

/-- A synthetic paginatable descriptor with a hyphenated extra query
parameter and an optional one, used to exercise the camel-cased alias
lookup of extra query parameters. -/
def aliasCmd : CmdDef :=
  { group := none
    action := "demo"
    operationId := "demoOp"
    method := "GET"
    path := "/v1/demo"
    summary := "Demo descriptor"
    args := []
    needsSite := false
    paginatable := true
    hasBody := false
    extraQuery := [{ name := "source-zone", required := true, desc := "Zone" },
                   { name := "force", required := false, desc := "Force" }] }

/-- C6: resolveRequest builds exactly the query record described by the
specification wording (offset, limit and filter emitted only when the
descriptor is paginatable and the value is supplied, each declared extra
query parameter emitted under its declared name when present under the
declared name or its camel-cased alias); concretely, a supplied offset with
an empty filter and an alias-keyed extra value yields only the offset and
the extra parameter under its declared name, and a non-paginatable
descriptor drops supplied offset and limit values entirely. -/
theorem resolveRequest_query_spec :
    (∀ (cmd : CmdDef) (params : ExecuteParams),
      (resolveRequest cmd params).query = specQuery cmd params) ∧
    (resolveRequest aliasCmd { params0 with
      offset := some "5", filter := some "",
      extraQuery := some [("sourceZone", "z1")] }).query =
      [("offset", "5"), ("source-zone", "z1")] ∧
    (resolveRequest deviceGetCmd { params0 with
      offset := some "7", limit := some "9" }).query = [] :=
  ⟨fun _ _ => rfl, rfl, rfl⟩

/-- C4 (amended): an input that matches the lexical shape tested by the
source regular expression — eight lowercase hexadecimal characters followed
by a hyphen — is returned unchanged by resolveSiteId, with the cache left
untouched and zero listing fetches, for every cache state, command lookup
result and listing. -/
theorem resolveSiteId_canonical_passthrough (cache : Option String) (s : String)
    (sitesCmd : Option CmdDef) (listing : Option (List SiteEntry))
    (h : looksLikeUuid s = true) :
    resolveSiteId cache s sitesCmd listing = (s, cache, 0) := by
  simp [resolveSiteId, h]

theorem resolveSiteId_canonical_passthrough_witness :
    looksLikeUuid "0a1b2c3d-x" = true ∧
    resolveSiteId none "0a1b2c3d-x" (some sitesListCmd) (some []) =
      ("0a1b2c3d-x", none, 0) :=
  ⟨by decide,
   resolveSiteId_canonical_passthrough none "0a1b2c3d-x" (some sitesListCmd) (some [])
     (by decide)⟩

/-- C4 counterexample: the string ABCDEF01-x begins with eight hexadecimal
characters followed by a hyphen (the canonical lexical shape as worded by
the claim), yet resolveSiteId does not short-circuit on it: with an empty
cache it performs one listing fetch rather than zero. -/
theorem resolveSiteId_uppercase_hex_fetches :
    specCanonicalShape "ABCDEF01-x" = true ∧
    (resolveSiteId none "ABCDEF01-x" (some sitesListCmd) (some [])).2.2 = 1 ∧
    (resolveSiteId none "ABCDEF01-x" (some sitesListCmd) (some [])).2.2 ≠ 0 :=
  ⟨by decide, rfl, by decide⟩

/-- A site-listing entry mapping the internal reference default to a
canonical id. -/
def defaultSiteEntry : SiteEntry :=
  { id := "88f7af54-98f8-306a-a1c7-c9349722b1f6", internalReference := some "default" }

/-- C5: the identifier cache is single-slot: once a first symbolic
resolution has cached a (non-empty) canonical id, a later resolveSiteId
call with a different symbolic identifier returns that first cached id
directly, with zero listing fetches, whatever listing the transport would
have produced for it. -/
theorem resolveSiteId_single_slot_cache (sym1 sym2 c r1 : String)
    (sc1 sc2 : Option CmdDef) (l1 l2 : Option (List SiteEntry))
    (hfirst : resolveSiteId none sym1 sc1 l1 = (r1, some c, 1))
    (hc : c ≠ "")
    (hsym2 : looksLikeUuid sym2 = false) :
    resolveSiteId (some c) sym2 sc2 l2 = (c, some c, 0) := by
  simp [resolveSiteId, hsym2, hc]

theorem resolveSiteId_single_slot_cache_witness :
    resolveSiteId none "default" (some sitesListCmd) (some [defaultSiteEntry]) =
      ("88f7af54-98f8-306a-a1c7-c9349722b1f6",
       some "88f7af54-98f8-306a-a1c7-c9349722b1f6", 1) ∧
    resolveSiteId (some "88f7af54-98f8-306a-a1c7-c9349722b1f6") "siteB"
      (some sitesListCmd) (some [defaultSiteEntry]) =
      ("88f7af54-98f8-306a-a1c7-c9349722b1f6",
       some "88f7af54-98f8-306a-a1c7-c9349722b1f6", 0) :=
  ⟨rfl,
   resolveSiteId_single_slot_cache "default" "siteB"
     "88f7af54-98f8-306a-a1c7-c9349722b1f6" "88f7af54-98f8-306a-a1c7-c9349722b1f6"
     (some sitesListCmd) (some sitesListCmd)
     (some [defaultSiteEntry]) (some [defaultSiteEntry])
     rfl (by decide) (by decide)⟩

/-- C8: when the listing fetch succeeds but no entry matches the symbolic
input by internal reference or id, resolveSiteId returns the original input
unchanged with the cache still unset after one fetch, and a subsequent
symbolic resolution performs the listing search again (one further
fetch). -/
theorem resolveSiteId_no_match_falls_through (siteId sym2 : String)
    (entries : List SiteEntry) (sc : CmdDef) (l2 : Option (List SiteEntry))
    (hsym : looksLikeUuid siteId = false)
    (hnom : ∀ e ∈ entries, e.internalReference ≠ some siteId ∧ e.id ≠ siteId)
    (hsym2 : looksLikeUuid sym2 = false) :
    resolveSiteId none siteId (some sc) (some entries) = (siteId, none, 1) ∧
    (resolveSiteId none sym2 (some sc) l2).2.2 = 1 := by
  have hfind : entries.find?
      (fun s => s.internalReference = some siteId || s.id = siteId) = none := by
    rw [List.find?_eq_none]
    intro e he
    simp [(hnom e he).1, (hnom e he).2]
  constructor
  · simp [resolveSiteId, hsym, hfind]
  · cases l2 with
    | none => simp [resolveSiteId, hsym2]
    | some es =>
      cases hfind2 : es.find?
          (fun s => s.internalReference = some sym2 || s.id = sym2) with
      | none => simp [resolveSiteId, hsym2, hfind2]
      | some m => simp [resolveSiteId, hsym2, hfind2]

theorem resolveSiteId_no_match_falls_through_witness :
    resolveSiteId none "nosuch" (some sitesListCmd) (some [defaultSiteEntry]) =
      ("nosuch", none, 1) ∧
    (resolveSiteId none "nosuch2" (some sitesListCmd) (some [defaultSiteEntry])).2.2 = 1 :=
  resolveSiteId_no_match_falls_through "nosuch" "nosuch2" [defaultSiteEntry]
    sitesListCmd (some [defaultSiteEntry]) (by decide)
    (by intro e he
        simp only [List.mem_singleton] at he
        subst he
        exact ⟨by decide, by decide⟩)
    (by decide)

/-- A cyclic schema document: the named schema A is a reference to
itself. -/
def cycDoc : SchemasDoc :=
  [("A", refNode "#/components/schemas/A")]

/-- C9: toJsonSchema is a total function terminating on every schema
document and node (its recursion is bounded by the maxDepth argument, which
every recursive call decrements, so Lean accepts it without any extra
fuel); with a depth bound of 0 it returns the generic object placeholder
for every input without recursing; a reference missing from the document
yields the placeholder rather than an error; and on a self-referential
document the cycle guard yields the placeholder at a positive depth. -/
theorem toJsonSchema_total_and_guarded :
    (∀ (sp : SchemasDoc) (s : SchemaRef) (seen : List String),
      toJsonSchema sp s 0 seen = genericObject) ∧
    (∀ (sp : SchemasDoc) (node : SchemaRef) (r : String) (d : Nat) (seen : List String),
      node.refName = some r → seen.contains r = false → resolveRef sp r = none →
      toJsonSchema sp node d seen = genericObject) ∧
    toJsonSchema cycDoc (refNode "#/components/schemas/A") 5 [] = genericObject := by
  refine ⟨fun sp s seen => rfl, ?_, rfl⟩
  intro sp node r d seen href hcontains hres
  cases d with
  | zero => rfl
  | succ d =>
    rw [toJsonSchema, toJsonSchemaAux, href]
    simp [hcontains, hres]

theorem toJsonSchema_total_and_guarded_witness :
    toJsonSchema [] (refNode "#/components/schemas/Missing") 3 [] = genericObject :=
  toJsonSchema_total_and_guarded.2.1 [] (refNode "#/components/schemas/Missing")
    "#/components/schemas/Missing" 3 [] rfl rfl rfl
